import Mathlib

/-!
Shallow embedding of the PerplFoundation dex-sdk-examples market-making bot
(`src/market-making`): the orchestrator run loop (`src/lib.rs`) and the three
order-placement strategies BBO, Spread and Taker
(`src/strategies/{bbo,spread,taker}.rs`).

Prices and sizes are modelled as exact rationals (`ℚ`), standing in for the
`fastnum::UD64` unsigned decimal type of the source; the claims under study do
not exercise decimal rounding or unsigned saturation, only exact comparisons
and small exact products.  `OrderRequest::prepare(exchange)` is an SDK
normalization step out of scope of the repository; it is modelled as the
identity on the request's fields, so `OrderDesc` and the prepared request
coincide.  Identifiers (accounts, perpetuals, order ids) are `Nat`.
-/

namespace MarketMaking

/-- Side of a book order (`perpl_sdk::types::OrderSide`). -/
inductive OrderSide where
  | bid
  | ask
deriving DecidableEq, Repr

/-- Type of a resting book order (`perpl_sdk::types::OrderType`, as used by the
strategies: open-long orders rest on the bid side, open-short on the ask side). -/
inductive OrderType where
  | openLong
  | openShort
deriving DecidableEq, Repr

/-- Side of a resting order type, mirroring `OrderType::side()`. -/
def OrderType.side : OrderType → OrderSide
  | .openLong => .bid
  | .openShort => .ask

/-- Request type of an order intent (`perpl_sdk::types::RequestType`). -/
inductive RequestType where
  | openLong
  | openShort
  | change
  | cancel
  | closeLong
  | closeShort
deriving DecidableEq, Repr

/-- A resting order as read from the snapshot's L3 book
(`perpl_sdk::state::Order`: the fields the strategies read). -/
structure Order where
  orderId : Nat
  accountId : Nat
  price : ℚ
  size : ℚ
  otype : OrderType
deriving DecidableEq, Repr

/-- Type of a position (`perpl_sdk::state::PositionType`). -/
inductive PositionType where
  | long
  | short
deriving DecidableEq, Repr

/-- A per-account per-perpetual position (`perpl_sdk::state::Position`). -/
structure Position where
  ptype : PositionType
  size : ℚ
deriving DecidableEq, Repr

/-- A validated submission-ready order intent
(`perpl_sdk::abi::dex::Exchange::OrderDesc`, identified with the
`OrderRequest` it was prepared from: account index `0` and the two trailing
`None` arguments of every `OrderRequest::new` call in the strategies are
omitted as constant). -/
structure OrderDesc where
  perpetualId : Nat
  reqType : RequestType
  targetOrderId : Option Nat
  price : ℚ
  size : ℚ
  postOnly : Bool
  reduceOnly : Bool
  ioc : Bool
  maxMatches : Option Nat
  leverage : ℚ
deriving DecidableEq, Repr

/-- An account in the snapshot: its open positions keyed by perpetual id
(`perpl_sdk::state::Account`, the part the strategies read). -/
structure Account where
  positions : List (Nat × Position)
deriving DecidableEq, Repr

/-- A perpetual market in the snapshot: its mark price and L3 book
(`perpl_sdk::state::Perpetual`, the part the strategies read: `mark_price()`,
`l3_book().best_bid()`, `l3_book().best_ask()`, `l3_book().all_orders()`). -/
structure Perpetual where
  markPrice : ℚ
  bestBid : Option ℚ
  bestAsk : Option ℚ
  allOrders : List Order
deriving DecidableEq, Repr

/-- The exchange snapshot (`perpl_sdk::state::Exchange`): accounts and
perpetuals, each an association list keyed by id. -/
structure Exchange where
  accounts : List (Nat × Account)
  perpetuals : List (Nat × Perpetual)
deriving DecidableEq, Repr

/-- Association-list lookup, modelling `HashMap::get`. -/
def assocFind {α β : Type} [DecidableEq α] (k : α) : List (α × β) → Option β
  | [] => none
  | (k₂, v) :: rest => if k₂ = k then some v else assocFind k rest

/-- Association-list removal of a key, modelling `HashMap::remove`. -/
def assocErase {α β : Type} [DecidableEq α] (k : α) : List (α × β) → List (α × β)
  | [] => []
  | (k₂, v) :: rest => if k₂ = k then assocErase k rest else (k₂, v) :: assocErase k rest

/-- Whether a key occurs in an association list, modelling
`HashMap::contains_key`. -/
def containsKey {α β : Type} [DecidableEq α] (k : α) : List (α × β) → Bool
  | [] => false
  | (k₂, _) :: rest => if k₂ = k then true else containsKey k rest

/-- Collecting an iterator of key-value pairs into a `HashMap` keeps exactly one
entry per key (a later duplicate overwrites an earlier one).  Iteration order of
a Rust `HashMap` is arbitrary; this model keeps the surviving entries in the
order of their last occurrences, one representative of the possible orders. -/
def collectMap {α β : Type} [DecidableEq α] : List (α × β) → List (α × β)
  | [] => []
  | (k, v) :: rest =>
    if containsKey k rest then collectMap rest else (k, v) :: collectMap rest

/-- Inserting into a `HashSet` is a no-op when the element is present.
Iteration order of a Rust `HashSet` is arbitrary; this model keeps insertion
order, one representative of the possible orders. -/
def hashInsert {α : Type} [DecidableEq α] (l : List α) (x : α) : List α :=
  if x ∈ l then l else l ++ [x]

/-- Outcome of one `Strategy::execute` call, as observable at its boundary.
`panicked` models a Rust `panic!`/`expect`/`unwrap` crash; `noSubmit` models
returning without submitting, which drops the `OwnedSemaphorePermit` at return
(an immediate release); `submitted batch atomic` models calling
`instance.execOpsAndOrders(vec![], batch, atomic)` and sending it, with the
permit handed to the background confirmation task. -/
inductive ExecOutcome where
  | panicked
  | noSubmit
  | submitted (batch : List OrderDesc) (atomic : Bool)
deriving DecidableEq, Repr

/-! ### Taker strategy (`src/strategies/taker.rs`) -/

/-- Stand-in for `fastnum`'s `UD64::MAX`, the maximum representable price.  Its
exact magnitude is irrelevant to the claims; only that it is positive. -/
def udMax : ℚ := 10 ^ 19

/-- Configuration of `TakerStrategy` (its fields other than the `OnceLock`
account binding and the fixed fair-coin distribution). -/
structure TakerCfg where
  leverage : ℚ
  perpetualId : Nat
  maxOrderSize : ℚ
deriving DecidableEq, Repr

namespace TakerStrategy

/-- Embeds `TakerStrategy::place_order` (taker.rs:160-185): price is
`UD64::MAX` for an `OpenLong` request and `UD64::ZERO` for every other request
type; not post-only, not reduce-only, immediate-or-cancel, no max-matches cap,
configured leverage. -/
def placeOrder (cfg : TakerCfg) (orderType : RequestType) (size : ℚ) : OrderDesc :=
  let price : ℚ := match orderType with
    | .openLong => udMax
    | _ => 0
  { perpetualId := cfg.perpetualId
    reqType := orderType
    targetOrderId := none
    price := price
    size := size
    postOnly := false
    reduceOnly := false
    ioc := true
    maxMatches := none
    leverage := cfg.leverage }

/-- Embeds `TakerStrategy::get_position` (taker.rs:147-158): panics (`none`
here models the panic paths) when the strategy is unbound or the bound account
is absent from the snapshot; otherwise the account's position on the
strategy's perpetual, if any. -/
def getPosition (cfg : TakerCfg) (accountId : Option Nat) (ex : Exchange) :
    Option (Option Position) :=
  match accountId with
  | none => none
  | some a =>
    match assocFind a ex.accounts with
    | none => none
    | some acct => some (assocFind cfg.perpetualId acct.positions)

/-- Embeds `TakerStrategy::execute` (taker.rs:72-132).  The two random draws of
the source (`Bernoulli(0.5)` direction bit, `OpenClosed01` size multiplier) are
explicit inputs `long` and `sizeMultiplier`.  The computed descs are always
submitted as a non-atomic batch (the source has no empty check, but the batch
always holds at least the opening order). -/
def execute (cfg : TakerCfg) (accountId : Option Nat) (ex : Exchange)
    (long : Bool) (sizeMultiplier : ℚ) : ExecOutcome :=
  match getPosition cfg accountId ex with
  | none => .panicked
  | some position =>
    let size := sizeMultiplier * cfg.maxOrderSize
    let orderDescs : List OrderDesc :=
      if long then
        (match position with
          | some pos =>
            if pos.ptype = .short then [placeOrder cfg .closeLong pos.size] else []
          | none => []) ++ [placeOrder cfg .openLong size]
      else
        (match position with
          | some pos =>
            if pos.ptype = .long then [placeOrder cfg .closeShort pos.size] else []
          | none => []) ++ [placeOrder cfg .openShort size]
    .submitted orderDescs false

end TakerStrategy

/-! ### BBO strategy (`src/strategies/bbo.rs`) -/

/-- An applied exchange-state change event, as passed to `execute`
(`perpl_sdk::state::StateEvents`): either an order event, whose event type the
BBO strategy inspects, or any other kind of event. -/
inductive StateEvent where
  | order (filled : Bool)
  | nonOrder
deriving DecidableEq, Repr

/-- Whether an event is an order event of type `Filled`, mirroring the match
`matches!(order_event.r#type, OrderEventType::Filled { .. })` of bbo.rs:94-98. -/
def isFillEvent : StateEvent → Bool
  | .order filled => filled
  | .nonOrder => false

/-- Configuration of `BboStrategy` (its fields other than the `OnceLock`
account binding). -/
structure BboCfg where
  orderSize : ℚ
  perpetualId : Nat
deriving DecidableEq, Repr

/-- Embeds the shared open-order fetch of the three strategies
(`fetch_open_orders`, bbo.rs:224-239, spread.rs:257-272): all resting orders of
the strategy's perpetual owned by the bound account.  The unbound-panic and the
missing-perpetual `unwrap` are handled by the callers of this model. -/
def fetchOpenOrders (perp : Perpetual) (accountId : Nat) : List Order :=
  perp.allOrders.filter (fun o => decide (o.accountId = accountId))

namespace BboStrategy

/-- Embeds `BboStrategy::place_order` (bbo.rs:252-273): post-only, unit
leverage, configured size, no target order id. -/
def placeOrder (cfg : BboCfg) (orderType : RequestType) (price : ℚ) : OrderDesc :=
  { perpetualId := cfg.perpetualId
    reqType := orderType
    targetOrderId := none
    price := price
    size := cfg.orderSize
    postOnly := true
    reduceOnly := false
    ioc := false
    maxMatches := none
    leverage := 1 }

/-- Embeds `BboStrategy::update_order` (bbo.rs:275-296): a `Change` request
targeting the existing order's id, post-only, unit leverage, configured size. -/
def updateOrder (cfg : BboCfg) (order : Order) (price : ℚ) : OrderDesc :=
  { perpetualId := cfg.perpetualId
    reqType := .change
    targetOrderId := some order.orderId
    price := price
    size := cfg.orderSize
    postOnly := true
    reduceOnly := false
    ioc := false
    maxMatches := none
    leverage := 1 }

/-- The order descs `BboStrategy::execute` computes once past its guards
(bbo.rs:120-151): maintain one bid and one ask; replace an existing bid only
when its price is below the best bid, an existing ask only when its price is
above the best ask; place a fresh order on a side with no existing order. -/
def computeDescs (cfg : BboCfg) (perp : Perpetual) (accountId : Nat)
    (bestBid bestAsk : ℚ) : List OrderDesc :=
  let openOrders := fetchOpenOrders perp accountId
  let bid := openOrders.find? (fun o => decide (o.otype.side = .bid))
  let bidDescs : List OrderDesc :=
    match bid with
    | some b => if b.price < bestBid then [updateOrder cfg b bestBid] else []
    | none => [placeOrder cfg .openLong bestBid]
  let ask := openOrders.find? (fun o => decide (o.otype.side = .ask))
  let askDescs : List OrderDesc :=
    match ask with
    | some a => if a.price > bestAsk then [updateOrder cfg a bestAsk] else []
    | none => [placeOrder cfg .openShort bestAsk]
  bidDescs ++ askDescs

/-- Embeds `BboStrategy::execute` (bbo.rs:75-182).  Checks in source order:
panic when unbound (bbo.rs:83-85); return when the event batch is empty
(bbo.rs:87-90) or contains no fill event (bbo.rs:92-107); panic when the
perpetual is absent (the `expect` in `get_bbo`, bbo.rs:241-250); return when
either book side is empty (bbo.rs:109-118); otherwise submit the computed
descs as an atomic batch — the source submits even when that list is empty. -/
def execute (cfg : BboCfg) (accountId : Option Nat) (ex : Exchange)
    (events : List StateEvent) : ExecOutcome :=
  match accountId with
  | none => .panicked
  | some a =>
    if events.isEmpty then .noSubmit
    else if !(events.any isFillEvent) then .noSubmit
    else
      match assocFind cfg.perpetualId ex.perpetuals with
      | none => .panicked
      | some perp =>
        match perp.bestBid, perp.bestAsk with
        | none, _ => .noSubmit
        | some _, none => .noSubmit
        | some bestBid, some bestAsk =>
          .submitted (computeDescs cfg perp a bestBid bestAsk) true

end BboStrategy

/-! ### Spread strategy (`src/strategies/spread.rs`) -/

/-- Configuration of `SpreadStrategy` (its fields other than the `OnceLock`
account binding and the mutable `current_mark_price`). -/
structure SpreadCfg where
  ordersPerSide : Nat
  orderSize : ℚ
  perpetualId : Nat
  maxMatchesPerOrder : Option Nat
  leverage : ℚ
deriving DecidableEq, Repr

/-- Mutable state of a `SpreadStrategy` instance: the `OnceLock` account
binding and the last observed mark price (initially zero). -/
structure SpreadState where
  accountId : Option Nat
  currentMarkPrice : ℚ
deriving DecidableEq, Repr

namespace SpreadStrategy

/-- Embeds `SpreadStrategy::place_order` (spread.rs:283-310): post-only,
configured leverage and max-matches cap, no target order id. -/
def placeOrder (cfg : SpreadCfg) (orderType : RequestType) (price size : ℚ) : OrderDesc :=
  { perpetualId := cfg.perpetualId
    reqType := orderType
    targetOrderId := none
    price := price
    size := size
    postOnly := true
    reduceOnly := false
    ioc := false
    maxMatches := cfg.maxMatchesPerOrder
    leverage := cfg.leverage }

/-- Embeds `SpreadStrategy::update_order` (spread.rs:312-339): a `Change`
request targeting the existing order's id, post-only, configured leverage and
max-matches cap. -/
def updateOrder (cfg : SpreadCfg) (order : Order) (price size : ℚ) : OrderDesc :=
  { perpetualId := cfg.perpetualId
    reqType := .change
    targetOrderId := some order.orderId
    price := price
    size := size
    postOnly := true
    reduceOnly := false
    ioc := false
    maxMatches := cfg.maxMatchesPerOrder
    leverage := cfg.leverage }

/-- The target bid prices of one side of the ladder (spread.rs:174-182): for
`i = 1..=ordersPerSide`, insert `(1 - i/500) * markPrice` into a hash set. -/
def targetBidPrices (n : Nat) (markPrice : ℚ) : List ℚ :=
  (List.range n).foldl
    (fun acc i => hashInsert acc ((1 - (((i + 1 : Nat) : ℚ)) / 500) * markPrice)) []

/-- The target ask prices of the ladder (spread.rs:174-182): for
`i = 1..=ordersPerSide`, insert `(1 + i/500) * markPrice` into a hash set. -/
def targetAskPrices (n : Nat) (markPrice : ℚ) : List ℚ :=
  (List.range n).foldl
    (fun acc i => hashInsert acc ((1 + (((i + 1 : Nat) : ℚ)) / 500) * markPrice)) []

/-- First phase of `create_target_order_changes` (spread.rs:217-231): walk the
target prices; a price matching an existing order's price removes that order
from the map and emits a size-fixing `Change` when the sizes differ; an
unmatched price is pushed onto `remaining`.  Returns the emitted descs, the
remaining prices (in iteration order) and the leftover map. -/
def matchTargets (cfg : SpreadCfg) :
    List ℚ → List (ℚ × Order) → List OrderDesc × List ℚ × List (ℚ × Order)
  | [], current => ([], [], current)
  | price :: rest, current =>
    match assocFind price current with
    | some existingOrder =>
      let current₂ := assocErase price current
      let (descs, remaining, leftover) := matchTargets cfg rest current₂
      if existingOrder.size ≠ cfg.orderSize then
        (updateOrder cfg existingOrder price cfg.orderSize :: descs, remaining, leftover)
      else
        (descs, remaining, leftover)
    | none =>
      let (descs, remaining, leftover) := matchTargets cfg rest current
      (descs, price :: remaining, leftover)

/-- Second phase of `create_target_order_changes` (spread.rs:233-243): walk the
leftover existing orders, popping a price off the END of `remaining`
(`Vec::pop`) for each and emitting a repurposing `Change`; stop when either
side runs out.  Returns the emitted descs and the prices still remaining. -/
def repurposeOrders (cfg : SpreadCfg) :
    List Order → List ℚ → List OrderDesc × List ℚ
  | [], remaining => ([], remaining)
  | existing :: rest, remaining =>
    match remaining.getLast? with
    | none => ([], [])
    | some price =>
      let desc := updateOrder cfg existing price cfg.orderSize
      let (descs, remaining₂) := repurposeOrders cfg rest remaining.dropLast
      (desc :: descs, remaining₂)

/-- Embeds `SpreadStrategy::create_target_order_changes` (spread.rs:207-255):
match targets against existing orders, repurpose leftover orders for unmatched
targets, then place new orders for whatever targets remain. -/
def createTargetOrderChanges (cfg : SpreadCfg) (current : List (ℚ × Order))
    (targetPrices : List ℚ) (requestType : RequestType) : List OrderDesc :=
  let (descs₁, remaining, leftover) := matchTargets cfg targetPrices current
  let (descs₂, remaining₂) := repurposeOrders cfg (leftover.map Prod.snd) remaining
  let descs₃ := remaining₂.map (fun price => placeOrder cfg requestType price cfg.orderSize)
  descs₁ ++ descs₂ ++ descs₃

/-- The account's resting open-long orders keyed by price, as collected into
`current_bids` (spread.rs:159-163). -/
def currentBids (perp : Perpetual) (accountId : Nat) : List (ℚ × Order) :=
  collectMap (((fetchOpenOrders perp accountId).filter
    (fun o => decide (o.otype = .openLong))).map (fun o => (o.price, o)))

/-- The account's resting open-short orders keyed by price, as collected into
`current_asks` (spread.rs:165-169). -/
def currentAsks (perp : Perpetual) (accountId : Nat) : List (ℚ × Order) :=
  collectMap (((fetchOpenOrders perp accountId).filter
    (fun o => decide (o.otype = .openShort))).map (fun o => (o.price, o)))

/-- The bid-side descs of one `process_orders` call (spread.rs:184-189). -/
def bidDescs (cfg : SpreadCfg) (perp : Perpetual) (accountId : Nat) : List OrderDesc :=
  createTargetOrderChanges cfg (currentBids perp accountId)
    (targetBidPrices cfg.ordersPerSide perp.markPrice) .openLong

/-- The ask-side descs of one `process_orders` call (spread.rs:191-196). -/
def askDescs (cfg : SpreadCfg) (perp : Perpetual) (accountId : Nat) : List OrderDesc :=
  createTargetOrderChanges cfg (currentAsks perp accountId)
    (targetAskPrices cfg.ordersPerSide perp.markPrice) .openShort

/-- Embeds `SpreadStrategy::process_orders` (spread.rs:149-205): read the new
mark price, remember whether it is ≤ the previous one, update the stored mark
price, reconcile each side against the account's resting orders, and emit
bid descs before ask descs when the mark price did not rise, ask descs first
otherwise.  Returns the updated strategy state and the batch. -/
def processOrders (cfg : SpreadCfg) (st : SpreadState) (perp : Perpetual)
    (accountId : Nat) : SpreadState × List OrderDesc :=
  let newMarkPrice := perp.markPrice
  let bidsFirst := decide (newMarkPrice ≤ st.currentMarkPrice)
  let st₂ := { st with currentMarkPrice := newMarkPrice }
  let bids := bidDescs cfg perp accountId
  let asks := askDescs cfg perp accountId
  if bidsFirst then (st₂, bids ++ asks) else (st₂, asks ++ bids)

/-- Embeds `SpreadStrategy::execute` (spread.rs:75-126).  In source order: the
book lookup `unwrap` panics when the perpetual is absent (spread.rs:83-87);
then panic when unbound (spread.rs:91-93); then `process_orders`; an empty
desc list returns without submitting (spread.rs:96-98, dropping the permit);
otherwise the batch is submitted non-atomically. -/
def execute (cfg : SpreadCfg) (st : SpreadState) (ex : Exchange) :
    SpreadState × ExecOutcome :=
  match assocFind cfg.perpetualId ex.perpetuals with
  | none => (st, .panicked)
  | some perp =>
    match st.accountId with
    | none => (st, .panicked)
    | some a =>
      let (st₂, orderDescs) := processOrders cfg st perp a
      if orderDescs.isEmpty then (st₂, .noSubmit)
      else (st₂, .submitted orderDescs false)

end SpreadStrategy

/-! ### Strategy initialization and the orchestrator outer loop
(`src/error.rs`, `src/lib.rs`) -/

/-- The bot's error taxonomy (`src/error.rs`), restricted to the variants the
orchestrator and strategies can produce in the modelled paths. -/
inductive BotError where
  | noAccountFoundForStrategy
  | tooManyAccountsForStrategy
  | accountIdAlreadySet
  | perpetualNotFoundInExchangeState (pid : Nat)
deriving DecidableEq, Repr

/-- Embeds the account-binding body shared verbatim by the three `initialize`
implementations (bbo.rs:35-57, spread.rs:46-68, taker.rs:43-65): error when the
snapshot has no account or more than one; `OnceLock::set` of the single
account's id, which errors when a binding is already set (regardless of the
perpetual); then error when the strategy's perpetual is absent from the
snapshot.  On success, returns the new binding.  BBO's subsequent cancel-all
submission (bbo.rs:59-72) is a network effect not modelled here. -/
def initializeBinding (binding : Option Nat) (ex : Exchange) (pid : Nat) :
    Except BotError Nat :=
  match ex.accounts with
  | [] => .error .noAccountFoundForStrategy
  | (a, _) :: rest =>
    if rest.isEmpty then
      match binding with
      | some _ => .error .accountIdAlreadySet
      | none =>
        if containsKey pid ex.perpetuals then .ok a
        else .error (.perpetualNotFoundInExchangeState pid)
    else .error .tooManyAccountsForStrategy

/-- Embeds the outer loop of `PerplMarketMakingBot::run` (lib.rs:67-174) at the
granularity of outer iterations.  Each list element is the snapshot built at
the top of one iteration (lib.rs:70-74); the iteration then calls
`strategy.initialize` and propagates its error out of `run` via `?`
(lib.rs:79-84); on success the inner loop runs until a stream failure breaks
it (lib.rs:107-115), after which the next iteration starts.  The result is the
binding state when the supplied iterations are exhausted, or the error with
which `run` returned. -/
def runOuter (pid : Nat) (binding : Option Nat) :
    List Exchange → Except BotError (Option Nat)
  | [] => .ok binding
  | ex :: rest =>
    match initializeBinding binding ex pid with
    | .error e => .error e
    | .ok a => runOuter pid (some a) rest

/-! ### The orchestrator inner loop as a state machine (`src/lib.rs:99-171`) -/

/-- State of one inner loop run: the single-slot semaphore's free permits
(`Semaphore::new(1)`, lib.rs:99), the number of permits checked out by
executions still in flight (the strategy call or its background confirmation
task), and the pending raw-event buffer (lib.rs:100). -/
structure InnerState where
  semAvail : Nat
  inflight : Nat
  buffer : List Nat
deriving DecidableEq, Repr

/-- The initial inner-loop state: one free permit, nothing in flight, empty
event buffer. -/
def innerInit : InnerState := { semAvail := 1, inflight := 0, buffer := [] }

/-- A wake of the inner loop's `tokio::select!` (lib.rs:105-170): the stream
closing, the stream yielding a decode error, a raw stream event, the error
channel closing, an error-channel message, or a timer tick. -/
inductive Wake where
  | streamClosed
  | streamDecodeErr
  | streamEvent (e : Nat)
  | errChannelClosed
  | errMessage
  | timerTick
deriving DecidableEq, Repr

/-- Result of handling one wake: `broke` models `break` out of the inner loop;
`cont s started` models continuing with state `s`, where `started` records
whether a `strategy.execute` call was started (a permit handed over) during
this wake. -/
inductive StepResult where
  | broke (s : InnerState)
  | cont (s : InnerState) (started : Bool)
deriving DecidableEq, Repr

/-- Embeds one arm of the inner loop's `tokio::select!` (lib.rs:105-170),
parametrized by `applyFn`, the model of `exchange.apply_events` (lib.rs:127:
`none` when the batch holds nothing relevant).  A stream event is buffered,
then `try_acquire_owned` is attempted: with no free permit the wake is
skipped (the buffer keeps the event, nothing is queued for execution,
lib.rs:119-122); with a permit the buffer is drained, and if every drained
event applies to nothing the permit is dropped and the loop continues
(lib.rs:134-136), else `execute` runs holding the permit.  Error-channel
messages and timer ticks run `execute` with an empty batch only when
`try_acquire_owned` succeeds, and are dropped otherwise (lib.rs:148-169). -/
def innerStep (applyFn : Nat → Option (List StateEvent)) (s : InnerState) :
    Wake → StepResult
  | .streamClosed => .broke s
  | .streamDecodeErr => .broke s
  | .streamEvent e =>
    let buffer₂ := s.buffer ++ [e]
    if s.semAvail = 0 then
      .cont { s with buffer := buffer₂ } false
    else
      let blockEvents := buffer₂.filterMap applyFn
      if blockEvents.isEmpty then
        .cont { s with buffer := [] } false
      else
        .cont { semAvail := s.semAvail - 1, inflight := s.inflight + 1, buffer := [] } true
  | .errChannelClosed => .broke s
  | .errMessage =>
    if s.semAvail = 0 then .cont s false
    else .cont { s with semAvail := s.semAvail - 1, inflight := s.inflight + 1 } true
  | .timerTick =>
    if s.semAvail = 0 then .cont s false
    else .cont { s with semAvail := s.semAvail - 1, inflight := s.inflight + 1 } true

/-- An operation interleaved into the inner loop's lifetime: a wake of the
`select!`, or the completion of an in-flight execution's background task,
which drops its `OwnedSemaphorePermit` back into the semaphore. -/
inductive LoopOp where
  | wake (w : Wake)
  | finishExecution
deriving DecidableEq, Repr

/-- Runs the inner loop over a sequence of operations from a starting state.
A `break` freezes the state (the inner loop has exited; the next outer
iteration builds a fresh semaphore). -/
def runInner (applyFn : Nat → Option (List StateEvent)) (s : InnerState) :
    List LoopOp → InnerState
  | [] => s
  | .wake w :: ops =>
    match innerStep applyFn s w with
    | .broke s₂ => s₂
    | .cont s₂ _ => runInner applyFn s₂ ops
  | .finishExecution :: ops =>
    if s.inflight = 0 then runInner applyFn s ops
    else runInner applyFn
      { s with semAvail := s.semAvail + 1, inflight := s.inflight - 1 } ops

/-- Whether a step started an execution. -/
def StepResult.startedExec : StepResult → Bool
  | .broke _ => false
  | .cont _ started => started

/-- The state carried by a step result. -/
def StepResult.state : StepResult → InnerState
  | .broke s => s
  | .cont s _ => s

/-! ### Theorems -/

/-- C9: when the BBO strategy is bound, its execute is a no-op for every event
batch containing zero order-filled events: it returns before constructing any
OrderDesc, submits nothing, and the permit is released immediately on
return (`noSubmit`). -/
theorem bbo_noop_without_fills (cfg : BboCfg) (a : Nat) (ex : Exchange)
    (events : List StateEvent) (h : events.any isFillEvent = false) :
    BboStrategy.execute cfg (some a) ex events = .noSubmit := by
  unfold BboStrategy.execute
  rcases events with _ | ⟨e, rest⟩
  · simp
  · simp [h]

theorem bbo_noop_without_fills_witness :
    ([StateEvent.nonOrder, StateEvent.order false].any isFillEvent = false) ∧
      BboStrategy.execute ⟨3, 1⟩ (some 0)
        ⟨[(0, ⟨[]⟩)], [(1, ⟨100, some 10, some 11, []⟩)]⟩
        [StateEvent.nonOrder, StateEvent.order false] = .noSubmit :=
  ⟨by decide, bbo_noop_without_fills ⟨3, 1⟩ 0
    ⟨[(0, ⟨[]⟩)], [(1, ⟨100, some 10, some 11, []⟩)]⟩
    [StateEvent.nonOrder, StateEvent.order false] (by decide)⟩

/-- C2 counterexample: the claim "invoking execute before the account binding
has been set signals an error rather than crashing: the call does not panic"
is false for all three strategy variants at these concrete inputs: each
`execute` reaches a `panic!("Strategy not initialized")`. -/
theorem execute_before_binding_counterexample :
    BboStrategy.execute ⟨3, 1⟩ none ⟨[(0, ⟨[]⟩)], [(1, ⟨100, some 10, some 11, []⟩)]⟩
        [StateEvent.order true] = .panicked ∧
      (SpreadStrategy.execute ⟨2, 7, 1, none, 1⟩ ⟨none, 0⟩
        ⟨[(0, ⟨[]⟩)], [(1, ⟨100, some 10, some 11, []⟩)]⟩).2 = .panicked ∧
      TakerStrategy.execute ⟨2, 1, 10⟩ none ⟨[(0, ⟨[]⟩)], [(1, ⟨100, none, none, []⟩)]⟩
        true (1/2) = .panicked := by
  refine ⟨rfl, rfl, rfl⟩

/-- C2 amended: for every strategy variant, invoking execute before the
account binding has been set panics (the source's deliberate
`panic!("Strategy not initialized")`) instead of signalling a recoverable
error: with an unbound account slot, every execute call yields `panicked`. -/
theorem execute_before_binding_panics (bcfg : BboCfg) (scfg : SpreadCfg)
    (tcfg : TakerCfg) (ex : Exchange) (events : List StateEvent) (m : ℚ)
    (long : Bool) (mult : ℚ) :
    BboStrategy.execute bcfg none ex events = .panicked ∧
      (SpreadStrategy.execute scfg ⟨none, m⟩ ex).2 = .panicked ∧
      TakerStrategy.execute tcfg none ex long mult = .panicked := by
  refine ⟨rfl, ?_, rfl⟩
  unfold SpreadStrategy.execute
  cases assocFind scfg.perpetualId ex.perpetuals <;> rfl

/-- C3 counterexample: the claim "each Taker order is priced at the maximum
representable price when it is a buy (an open-long order, and also the
close-long order that closes a short position)" is false: with a short
position of size 5 and a long draw, the emitted close-long order is priced at
zero, not at the maximum representable price. -/
theorem taker_close_long_priced_at_zero :
    TakerStrategy.execute ⟨2, 1, 10⟩ (some 0)
        ⟨[(0, ⟨[(1, ⟨.short, 5⟩)]⟩)], [(1, ⟨100, none, none, []⟩)]⟩ true (1/2) =
      .submitted [TakerStrategy.placeOrder ⟨2, 1, 10⟩ .closeLong 5,
        TakerStrategy.placeOrder ⟨2, 1, 10⟩ .openLong 5] false ∧
      (TakerStrategy.placeOrder ⟨2, 1, 10⟩ .closeLong 5).reqType = .closeLong ∧
      (TakerStrategy.placeOrder ⟨2, 1, 10⟩ .closeLong 5).price = 0 ∧
      udMax ≠ 0 := by
  refine ⟨by norm_num [TakerStrategy.execute, TakerStrategy.getPosition, assocFind], rfl, rfl, ?_⟩
  unfold udMax
  norm_num

/-- C3 amended: every order emitted by the Taker strategy's execute is
immediate-or-cancel and not post-only, and is priced at the maximum
representable price exactly when it is an open-long request and at zero for
every other request type — in particular the close-long order that closes a
short position is priced at zero. -/
theorem taker_orders_ioc_extreme_priced (cfg : TakerCfg) (accountId : Option Nat)
    (ex : Exchange) (long : Bool) (mult : ℚ) (batch : List OrderDesc) (atom : Bool)
    (h : TakerStrategy.execute cfg accountId ex long mult = .submitted batch atom)
    (d : OrderDesc) (hd : d ∈ batch) :
    d.ioc = true ∧ d.postOnly = false ∧
      d.price = (if d.reqType = .openLong then udMax else 0) := by
  have hdesc : ∀ rt sz, (TakerStrategy.placeOrder cfg rt sz).ioc = true ∧
      (TakerStrategy.placeOrder cfg rt sz).postOnly = false ∧
      (TakerStrategy.placeOrder cfg rt sz).price =
        (if (TakerStrategy.placeOrder cfg rt sz).reqType = .openLong then udMax else 0) := by
    intro rt sz
    cases rt <;> simp [TakerStrategy.placeOrder]
  have hmem : ∃ rt sz, d = TakerStrategy.placeOrder cfg rt sz := by
    unfold TakerStrategy.execute at h
    cases hpos : TakerStrategy.getPosition cfg accountId ex with
    | none => rw [hpos] at h; exact absurd h (by simp)
    | some position =>
      rw [hpos] at h
      simp only [ExecOutcome.submitted.injEq] at h
      obtain ⟨hb, -⟩ := h
      subst hb
      cases long with
      | true =>
        cases position with
        | none =>
          simp at hd
          exact ⟨_, _, hd⟩
        | some pos =>
          by_cases hty : pos.ptype = .short
          · simp [hty] at hd
            rcases hd with hd | hd
            exacts [⟨_, _, hd⟩, ⟨_, _, hd⟩]
          · simp [hty] at hd
            exact ⟨_, _, hd⟩
      | false =>
        cases position with
        | none =>
          simp at hd
          exact ⟨_, _, hd⟩
        | some pos =>
          by_cases hty : pos.ptype = .long
          · simp [hty] at hd
            rcases hd with hd | hd
            exacts [⟨_, _, hd⟩, ⟨_, _, hd⟩]
          · simp [hty] at hd
            exact ⟨_, _, hd⟩
  obtain ⟨rt, sz, rfl⟩ := hmem
  exact hdesc rt sz

theorem taker_orders_ioc_extreme_priced_witness :
    TakerStrategy.execute ⟨2, 1, 10⟩ (some 0)
        ⟨[(0, ⟨[(1, ⟨.short, 5⟩)]⟩)], [(1, ⟨100, none, none, []⟩)]⟩ true (1/2) =
      .submitted [TakerStrategy.placeOrder ⟨2, 1, 10⟩ .closeLong 5,
        TakerStrategy.placeOrder ⟨2, 1, 10⟩ .openLong 5] false ∧
      (TakerStrategy.placeOrder ⟨2, 1, 10⟩ .closeLong 5).ioc = true ∧
      (TakerStrategy.placeOrder ⟨2, 1, 10⟩ .closeLong 5).postOnly = false ∧
      (TakerStrategy.placeOrder ⟨2, 1, 10⟩ .closeLong 5).price =
        (if (TakerStrategy.placeOrder ⟨2, 1, 10⟩ .closeLong 5).reqType = .openLong
          then udMax else 0) := by
  have hrun : TakerStrategy.execute ⟨2, 1, 10⟩ (some 0)
      ⟨[(0, ⟨[(1, ⟨.short, 5⟩)]⟩)], [(1, ⟨100, none, none, []⟩)]⟩ true (1/2) =
      .submitted [TakerStrategy.placeOrder ⟨2, 1, 10⟩ .closeLong 5,
        TakerStrategy.placeOrder ⟨2, 1, 10⟩ .openLong 5] false := by
    norm_num [TakerStrategy.execute, TakerStrategy.getPosition, assocFind]
  exact ⟨hrun, taker_orders_ioc_extreme_priced ⟨2, 1, 10⟩ (some 0) _ true (1/2) _ false
    hrun _ (by simp)⟩

/-- C7: for every previous and new mark price, the batch emitted by the Spread
strategy's process_orders places all bid-side descs before all ask-side descs
when the new mark price is less than or equal to the previous one, and all
ask-side descs before all bid-side descs otherwise. -/
theorem spread_batch_side_ordering (cfg : SpreadCfg) (st : SpreadState)
    (perp : Perpetual) (a : Nat) :
    (SpreadStrategy.processOrders cfg st perp a).2 =
      if perp.markPrice ≤ st.currentMarkPrice
      then SpreadStrategy.bidDescs cfg perp a ++ SpreadStrategy.askDescs cfg perp a
      else SpreadStrategy.askDescs cfg perp a ++ SpreadStrategy.bidDescs cfg perp a := by
  unfold SpreadStrategy.processOrders
  by_cases h : perp.markPrice ≤ st.currentMarkPrice <;> simp [h]

theorem innerStep_preserves_permits (f : Nat → Option (List StateEvent))
    (s : InnerState) (w : Wake) (h : s.semAvail + s.inflight = 1) :
    (innerStep f s w).state.semAvail + (innerStep f s w).state.inflight = 1 := by
  cases w <;>
    simp only [innerStep] <;>
    (repeat' split) <;>
    simp only [StepResult.state] <;>
    omega

theorem innerStep_busy_skips (f : Nat → Option (List StateEvent))
    (s : InnerState) (w : Wake) (h : s.semAvail = 0) :
    (innerStep f s w).startedExec = false := by
  cases w <;> simp [innerStep, StepResult.startedExec, h]

theorem runInner_preserves_permits (f : Nat → Option (List StateEvent))
    (ops : List LoopOp) (s : InnerState) (h : s.semAvail + s.inflight = 1) :
    (runInner f s ops).semAvail + (runInner f s ops).inflight = 1 := by
  induction ops generalizing s with
  | nil => exact h
  | cons op ops ih =>
    cases op with
    | wake w =>
      have hstep := innerStep_preserves_permits f s w h
      simp only [runInner]
      cases hw : innerStep f s w with
      | broke s₂ => rw [hw] at hstep; exact hstep
      | cont s₂ started => rw [hw] at hstep; exact ih s₂ hstep
    | finishExecution =>
      by_cases h0 : s.inflight = 0
      · simpa [runInner, h0] using ih s h
      · simpa [runInner, h0] using
          ih { s with semAvail := s.semAvail + 1, inflight := s.inflight - 1 }
            (show s.semAvail + 1 + (s.inflight - 1) = 1 by omega)

/-- C5: in every reachable state of every run of the orchestrator's inner
loop, the single-slot semaphore's free permits plus the permits held by
in-flight executions total exactly one, so at most one permit is checked out
and at most one `execute` is in flight at any instant; and a wake arriving
while the permit is checked out starts no execution (`try_acquire`,
non-blocking) — an error-channel or timer wake is then dropped with the state
completely unchanged, not queued. -/
theorem permit_single_flight (f : Nat → Option (List StateEvent)) (ops : List LoopOp) :
    ((runInner f innerInit ops).semAvail + (runInner f innerInit ops).inflight = 1) ∧
      ((runInner f innerInit ops).inflight ≤ 1) ∧
      (∀ w, (runInner f innerInit ops).semAvail = 0 →
        (innerStep f (runInner f innerInit ops) w).startedExec = false) ∧
      ((runInner f innerInit ops).semAvail = 0 →
        innerStep f (runInner f innerInit ops) .errMessage =
          .cont (runInner f innerInit ops) false ∧
        innerStep f (runInner f innerInit ops) .timerTick =
          .cont (runInner f innerInit ops) false) := by
  have hinv := runInner_preserves_permits f ops innerInit rfl
  refine ⟨hinv, by omega, fun w hbusy => innerStep_busy_skips f _ w hbusy, fun hbusy => ?_⟩
  constructor <;> simp [innerStep, hbusy]

theorem permit_single_flight_witness :
    ((runInner (fun _ => some [StateEvent.order true]) innerInit
        [.wake (.streamEvent 0), .wake .timerTick]).semAvail = 0 →
      innerStep (fun _ => some [StateEvent.order true])
          (runInner (fun _ => some [StateEvent.order true]) innerInit
            [.wake (.streamEvent 0), .wake .timerTick]) .errMessage =
        .cont (runInner (fun _ => some [StateEvent.order true]) innerInit
          [.wake (.streamEvent 0), .wake .timerTick]) false ∧
      innerStep (fun _ => some [StateEvent.order true])
          (runInner (fun _ => some [StateEvent.order true]) innerInit
            [.wake (.streamEvent 0), .wake .timerTick]) .timerTick =
        .cont (runInner (fun _ => some [StateEvent.order true]) innerInit
          [.wake (.streamEvent 0), .wake .timerTick]) false) ∧
      (runInner (fun _ => some [StateEvent.order true]) innerInit
        [.wake (.streamEvent 0), .wake .timerTick]).inflight ≤ 1 :=
  ⟨(permit_single_flight (fun _ => some [StateEvent.order true])
      [.wake (.streamEvent 0), .wake .timerTick]).2.2.2,
    (permit_single_flight (fun _ => some [StateEvent.order true])
      [.wake (.streamEvent 0), .wake .timerTick]).2.1⟩

/-- C1 (code-bug evidence): after one successful initialize (left conjunct:
the first outer iteration binds account 0), the restart path taken on a
stream failure re-runs `initialize` against the rebuilt snapshot, whose
`OnceLock::set` now fails, and `run` propagates `AccountIdAlreadySet` out of
the outer loop (right conjunct) — so on this restart path the process
terminates with an error instead of keeping running as the claim states. -/
theorem restart_after_success_terminates_run :
    runOuter 1 none [⟨[(0, ⟨[]⟩)], [(1, ⟨100, none, none, []⟩)]⟩] = .ok (some 0) ∧
      runOuter 1 none [⟨[(0, ⟨[]⟩)], [(1, ⟨100, none, none, []⟩)]⟩,
        ⟨[(0, ⟨[]⟩)], [(1, ⟨100, none, none, []⟩)]⟩] = .error .accountIdAlreadySet :=
  ⟨rfl, rfl⟩

/-- C4 counterexample: the claim "execute submits an order batch only when it
has computed at least one OrderDesc" is false for the BBO variant: with a
fill event, a two-sided book, and the account's bid already at the best bid
and its ask already at the best ask, the computed desc list is empty and the
source still submits it. -/
theorem bbo_submits_empty_batch :
    BboStrategy.execute ⟨3, 1⟩ (some 0)
      ⟨[(0, ⟨[]⟩)], [(1, ⟨100, some 10, some 11,
        [⟨5, 0, 10, 3, .openLong⟩, ⟨6, 0, 11, 3, .openShort⟩]⟩)]⟩
      [.order true] = .submitted [] true := by
  decide

theorem spread_execute_eq (cfg : SpreadCfg) (st : SpreadState) (ex : Exchange)
    (perp : Perpetual) (a : Nat)
    (hperp : assocFind cfg.perpetualId ex.perpetuals = some perp)
    (hacc : st.accountId = some a) :
    SpreadStrategy.execute cfg st ex =
      (if (SpreadStrategy.processOrders cfg st perp a).2.isEmpty
        then ((SpreadStrategy.processOrders cfg st perp a).1, .noSubmit)
        else ((SpreadStrategy.processOrders cfg st perp a).1,
          .submitted (SpreadStrategy.processOrders cfg st perp a).2 false)) := by
  unfold SpreadStrategy.execute
  rw [hperp, hacc]

/-- C4 amended: the Spread strategy submits a batch only when it computed at
least one OrderDesc and returns immediately (releasing the permit) when it
computed zero; the Taker strategy always computes at least one OrderDesc, so
every submission is non-empty; the BBO strategy, once past its fill-event and
two-sided-book guards, submits its computed batch even when that batch is
empty. -/
theorem empty_batch_submission_policy :
    (∀ (cfg : SpreadCfg) (st : SpreadState) (ex : Exchange) (b : List OrderDesc)
      (atom : Bool), (SpreadStrategy.execute cfg st ex).2 = .submitted b atom → b ≠ []) ∧
      (∀ (cfg : SpreadCfg) (st : SpreadState) (ex : Exchange) (perp : Perpetual) (a : Nat),
        assocFind cfg.perpetualId ex.perpetuals = some perp → st.accountId = some a →
        (SpreadStrategy.processOrders cfg st perp a).2 = [] →
        (SpreadStrategy.execute cfg st ex).2 = .noSubmit) ∧
      (∀ (cfg : TakerCfg) (aid : Option Nat) (ex : Exchange) (long : Bool) (mult : ℚ)
        (b : List OrderDesc) (atom : Bool),
        TakerStrategy.execute cfg aid ex long mult = .submitted b atom → b ≠ []) ∧
      (∀ (cfg : BboCfg) (a : Nat) (ex : Exchange) (events : List StateEvent)
        (perp : Perpetual) (bb ba : ℚ),
        assocFind cfg.perpetualId ex.perpetuals = some perp →
        perp.bestBid = some bb → perp.bestAsk = some ba →
        events.any isFillEvent = true →
        BboStrategy.execute cfg (some a) ex events =
          .submitted (BboStrategy.computeDescs cfg perp a bb ba) true) := by
  refine ⟨?_, ?_, ?_, ?_⟩
  · intro cfg st ex b atom h
    cases hperp : assocFind cfg.perpetualId ex.perpetuals with
    | none => simp [SpreadStrategy.execute, hperp] at h
    | some perp =>
      cases hacc : st.accountId with
      | none => simp [SpreadStrategy.execute, hperp, hacc] at h
      | some a =>
        rw [spread_execute_eq cfg st ex perp a hperp hacc] at h
        by_cases hde : (SpreadStrategy.processOrders cfg st perp a).2.isEmpty
        · simp [hde] at h
        · simp [hde] at h
          obtain ⟨hb, -⟩ := h
          subst hb
          simpa [List.isEmpty_iff] using hde
  · intro cfg st ex perp a hperp hacc hempty
    rw [spread_execute_eq cfg st ex perp a hperp hacc]
    simp [hempty]
  · intro cfg aid ex long mult b atom h
    unfold TakerStrategy.execute at h
    cases hpos : TakerStrategy.getPosition cfg aid ex with
    | none => rw [hpos] at h; exact absurd h (by simp)
    | some position =>
      rw [hpos] at h
      simp only [ExecOutcome.submitted.injEq] at h
      obtain ⟨hb, -⟩ := h
      subst hb
      cases long <;> cases position <;> simp
  · intro cfg a ex events perp bb ba hperp hbid hask hfill
    have hne : events.isEmpty = false := by
      cases events with
      | nil => simp at hfill
      | cons e rest => simp
    unfold BboStrategy.execute
    simp only [hne, hfill, hperp, hbid, hask]
    simp

theorem empty_batch_submission_policy_witness :
    [SpreadStrategy.placeOrder ⟨1, 7, 1, none, 1⟩ .openLong 499 7,
        SpreadStrategy.placeOrder ⟨1, 7, 1, none, 1⟩ .openShort 501 7] ≠ [] ∧
      (SpreadStrategy.execute ⟨1, 7, 1, none, 1⟩ ⟨some 0, 500⟩
        ⟨[(0, ⟨[]⟩)], [(1, ⟨500, none, none,
          [⟨5, 0, 499, 7, .openLong⟩, ⟨6, 0, 501, 7, .openShort⟩]⟩)]⟩).2 = .noSubmit ∧
      [TakerStrategy.placeOrder ⟨2, 1, 10⟩ .openLong 10] ≠ [] ∧
      BboStrategy.execute ⟨3, 1⟩ (some 0)
          ⟨[(0, ⟨[]⟩)], [(1, ⟨100, some 10, some 11,
            [⟨5, 0, 10, 3, .openLong⟩, ⟨6, 0, 11, 3, .openShort⟩]⟩)]⟩ [.order true] =
        .submitted (BboStrategy.computeDescs ⟨3, 1⟩
          ⟨100, some 10, some 11,
            [⟨5, 0, 10, 3, .openLong⟩, ⟨6, 0, 11, 3, .openShort⟩]⟩ 0 10 11) true := by
  have hsubmit : (SpreadStrategy.execute ⟨1, 7, 1, none, 1⟩ ⟨some 0, 500⟩
      ⟨[(0, ⟨[]⟩)], [(1, ⟨500, none, none, []⟩)]⟩).2 =
      .submitted [SpreadStrategy.placeOrder ⟨1, 7, 1, none, 1⟩ .openLong 499 7,
        SpreadStrategy.placeOrder ⟨1, 7, 1, none, 1⟩ .openShort 501 7] false := by
    norm_num [SpreadStrategy.execute, SpreadStrategy.processOrders, SpreadStrategy.bidDescs,
      SpreadStrategy.askDescs, SpreadStrategy.currentBids, SpreadStrategy.currentAsks,
      SpreadStrategy.targetBidPrices, SpreadStrategy.targetAskPrices,
      SpreadStrategy.createTargetOrderChanges, SpreadStrategy.matchTargets,
      SpreadStrategy.repurposeOrders, fetchOpenOrders, hashInsert, collectMap, containsKey,
      assocFind, assocErase, List.range_succ]
  have hempty : (SpreadStrategy.processOrders ⟨1, 7, 1, none, 1⟩ ⟨some 0, 500⟩
      ⟨500, none, none,
        [⟨5, 0, 499, 7, .openLong⟩, ⟨6, 0, 501, 7, .openShort⟩]⟩ 0).2 = [] := by
    norm_num [SpreadStrategy.processOrders, SpreadStrategy.bidDescs,
      SpreadStrategy.askDescs, SpreadStrategy.currentBids, SpreadStrategy.currentAsks,
      SpreadStrategy.targetBidPrices, SpreadStrategy.targetAskPrices,
      SpreadStrategy.createTargetOrderChanges, SpreadStrategy.matchTargets,
      SpreadStrategy.repurposeOrders, fetchOpenOrders, hashInsert, collectMap, containsKey,
      assocFind, assocErase, List.range_succ]
  have htaker : TakerStrategy.execute ⟨2, 1, 10⟩ (some 0)
      ⟨[(0, ⟨[]⟩)], [(1, ⟨100, none, none, []⟩)]⟩ true 1 =
      .submitted [TakerStrategy.placeOrder ⟨2, 1, 10⟩ .openLong 10] false := by
    norm_num [TakerStrategy.execute, TakerStrategy.getPosition, assocFind]
  refine ⟨?_, ?_, ?_, ?_⟩
  · exact empty_batch_submission_policy.1 ⟨1, 7, 1, none, 1⟩ ⟨some 0, 500⟩
      ⟨[(0, ⟨[]⟩)], [(1, ⟨500, none, none, []⟩)]⟩ _ false hsubmit
  · exact empty_batch_submission_policy.2.1 ⟨1, 7, 1, none, 1⟩ ⟨some 0, 500⟩
      ⟨[(0, ⟨[]⟩)], [(1, ⟨500, none, none,
        [⟨5, 0, 499, 7, .openLong⟩, ⟨6, 0, 501, 7, .openShort⟩]⟩)]⟩
      ⟨500, none, none, [⟨5, 0, 499, 7, .openLong⟩, ⟨6, 0, 501, 7, .openShort⟩]⟩ 0
      rfl rfl hempty
  · exact empty_batch_submission_policy.2.2.1 ⟨2, 1, 10⟩ (some 0)
      ⟨[(0, ⟨[]⟩)], [(1, ⟨100, none, none, []⟩)]⟩ true 1 _ false htaker
  · exact empty_batch_submission_policy.2.2.2 ⟨3, 1⟩ 0
      ⟨[(0, ⟨[]⟩)], [(1, ⟨100, some 10, some 11,
        [⟨5, 0, 10, 3, .openLong⟩, ⟨6, 0, 11, 3, .openShort⟩]⟩)]⟩ [.order true]
      ⟨100, some 10, some 11, [⟨5, 0, 10, 3, .openLong⟩, ⟨6, 0, 11, 3, .openShort⟩]⟩
      10 11 rfl rfl rfl (by decide)

/-- C6: with mark price 100, two orders per side, configured size `S`, and no
resting orders for the bound account, the Spread strategy's reconciliation
produces exactly 4 new orders (no target order id), at bid prices 99.8 and
99.6 (= 499/5 and 498/5) and ask prices 100.2 and 100.4 (= 501/5 and 502/5),
each of size `S`, up to the batch's side ordering. -/
theorem spread_ladder_four_orders (S lev : ℚ) (mm : Option Nat) (pid a : Nat)
    (st : SpreadState) (perp : Perpetual)
    (hmark : perp.markPrice = 100)
    (horders : fetchOpenOrders perp a = []) :
    ((SpreadStrategy.processOrders ⟨2, S, pid, mm, lev⟩ st perp a).2.map
      (fun d => (d.reqType, d.price, d.size, d.targetOrderId))).Perm
      [(.openLong, (499/5 : ℚ), S, (none : Option Nat)),
        (.openLong, (498/5 : ℚ), S, none),
        (.openShort, (501/5 : ℚ), S, none),
        (.openShort, (502/5 : ℚ), S, none)] := by
  have hbids : SpreadStrategy.bidDescs ⟨2, S, pid, mm, lev⟩ perp a =
      [SpreadStrategy.placeOrder ⟨2, S, pid, mm, lev⟩ .openLong (499/5) S,
        SpreadStrategy.placeOrder ⟨2, S, pid, mm, lev⟩ .openLong (498/5) S] := by
    norm_num [SpreadStrategy.bidDescs, SpreadStrategy.currentBids, horders, hmark,
      SpreadStrategy.targetBidPrices, hashInsert, List.range_succ,
      SpreadStrategy.createTargetOrderChanges, SpreadStrategy.matchTargets,
      SpreadStrategy.repurposeOrders, collectMap, assocFind]
  have hasks : SpreadStrategy.askDescs ⟨2, S, pid, mm, lev⟩ perp a =
      [SpreadStrategy.placeOrder ⟨2, S, pid, mm, lev⟩ .openShort (501/5) S,
        SpreadStrategy.placeOrder ⟨2, S, pid, mm, lev⟩ .openShort (502/5) S] := by
    norm_num [SpreadStrategy.askDescs, SpreadStrategy.currentAsks, horders, hmark,
      SpreadStrategy.targetAskPrices, hashInsert, List.range_succ,
      SpreadStrategy.createTargetOrderChanges, SpreadStrategy.matchTargets,
      SpreadStrategy.repurposeOrders, collectMap, assocFind]
  unfold SpreadStrategy.processOrders
  rw [hbids, hasks]
  dsimp only
  split
  · exact List.Perm.refl _
  · dsimp only
    rw [List.map_append]
    exact List.Perm.trans List.perm_append_comm (List.Perm.refl _)

theorem matchTargets_descs_change (cfg : SpreadCfg) (ts : List ℚ)
    (current : List (ℚ × Order)) (d : OrderDesc)
    (hd : d ∈ (SpreadStrategy.matchTargets cfg ts current).1) : d.reqType = .change := by
  induction ts generalizing current with
  | nil => simp [SpreadStrategy.matchTargets] at hd
  | cons p rest ih =>
    unfold SpreadStrategy.matchTargets at hd
    cases hf : assocFind p current with
    | some o =>
      rw [hf] at hd
      dsimp only at hd
      rcases hm : SpreadStrategy.matchTargets cfg rest (assocErase p current) with ⟨ds, rem, lo⟩
      rw [hm] at hd
      try dsimp only at hd
      by_cases hsz : o.size ≠ cfg.orderSize
      · rw [if_pos hsz] at hd
        rcases List.mem_cons.mp hd with hd | hd
        · subst hd; rfl
        · exact ih _ (by rw [hm]; exact hd)
      · rw [if_neg hsz] at hd
        exact ih _ (by rw [hm]; exact hd)
    | none =>
      rw [hf] at hd
      dsimp only at hd
      rcases hm : SpreadStrategy.matchTargets cfg rest current with ⟨ds, rem, lo⟩
      rw [hm] at hd
      try dsimp only at hd
      exact ih _ (by rw [hm]; exact hd)

theorem repurposeOrders_descs_change (cfg : SpreadCfg) (orders : List Order)
    (rem : List ℚ) (d : OrderDesc)
    (hd : d ∈ (SpreadStrategy.repurposeOrders cfg orders rem).1) : d.reqType = .change := by
  induction orders generalizing rem with
  | nil => simp [SpreadStrategy.repurposeOrders] at hd
  | cons o rest ih =>
    unfold SpreadStrategy.repurposeOrders at hd
    cases hl : rem.getLast? with
    | none => rw [hl] at hd; simp at hd
    | some price =>
      rw [hl] at hd
      dsimp only at hd
      rcases hm : SpreadStrategy.repurposeOrders cfg rest rem.dropLast with ⟨ds, rem₂⟩
      rw [hm] at hd
      try dsimp only at hd
      rcases List.mem_cons.mp hd with hd | hd
      · subst hd; rfl
      · exact ih _ (by rw [hm]; exact hd)

theorem createTargetOrderChanges_reqTypes (cfg : SpreadCfg) (current : List (ℚ × Order))
    (targets : List ℚ) (rt : RequestType) (d : OrderDesc)
    (hd : d ∈ SpreadStrategy.createTargetOrderChanges cfg current targets rt) :
    d.reqType = rt ∨ d.reqType = .change := by
  unfold SpreadStrategy.createTargetOrderChanges at hd
  rcases hm : SpreadStrategy.matchTargets cfg targets current with ⟨ds₁, rem, lo⟩
  rw [hm] at hd
  dsimp only at hd
  rcases hr : SpreadStrategy.repurposeOrders cfg (lo.map Prod.snd) rem with ⟨ds₂, rem₂⟩
  rw [hr] at hd
  try dsimp only at hd
  rcases List.mem_append.mp hd with hd | hd
  · rcases List.mem_append.mp hd with hd | hd
    · right; exact matchTargets_descs_change cfg targets current d (by rw [hm]; exact hd)
    · right; exact repurposeOrders_descs_change cfg (lo.map Prod.snd) rem d (by rw [hr]; exact hd)
  · left
    obtain ⟨p, hp, hpe⟩ := List.mem_map.mp hd
    subst hpe
    rfl

/-- C10: for every snapshot, the order list produced by the Spread strategy's
reconciliation contains only new-order requests (open-long/open-short) and
change requests, never a cancel request; resting orders beyond those matched
or repurposed receive no request at all. -/
theorem spread_descs_never_cancel (cfg : SpreadCfg) (st : SpreadState)
    (perp : Perpetual) (a : Nat) (d : OrderDesc)
    (hd : d ∈ (SpreadStrategy.processOrders cfg st perp a).2) :
    d.reqType = .openLong ∨ d.reqType = .openShort ∨ d.reqType = .change := by
  unfold SpreadStrategy.processOrders at hd
  dsimp only at hd
  split at hd <;> dsimp only at hd <;> rcases List.mem_append.mp hd with hd | hd
  · rcases createTargetOrderChanges_reqTypes _ _ _ _ _ hd with h | h
    · exact Or.inl h
    · exact Or.inr (Or.inr h)
  · rcases createTargetOrderChanges_reqTypes _ _ _ _ _ hd with h | h
    · exact Or.inr (Or.inl h)
    · exact Or.inr (Or.inr h)
  · rcases createTargetOrderChanges_reqTypes _ _ _ _ _ hd with h | h
    · exact Or.inr (Or.inl h)
    · exact Or.inr (Or.inr h)
  · rcases createTargetOrderChanges_reqTypes _ _ _ _ _ hd with h | h
    · exact Or.inl h
    · exact Or.inr (Or.inr h)

theorem hashInsert_nodup {α : Type} [DecidableEq α] (l : List α) (x : α) (h : l.Nodup) :
    (hashInsert l x).Nodup := by
  unfold hashInsert
  split
  · exact h
  · rename_i hx
    simp [List.nodup_append, h, hx]

theorem foldl_hashInsert_nodup {α : Type} [DecidableEq α] (g : Nat → α) (l : List Nat)
    (acc : List α) (h : acc.Nodup) :
    (l.foldl (fun acc i => hashInsert acc (g i)) acc).Nodup := by
  induction l generalizing acc with
  | nil => exact h
  | cons i rest ih => exact ih _ (hashInsert_nodup _ _ h)

theorem targetBidPrices_nodup (n : Nat) (m : ℚ) :
    (SpreadStrategy.targetBidPrices n m).Nodup := by
  unfold SpreadStrategy.targetBidPrices
  exact foldl_hashInsert_nodup (fun i => (1 - (((i + 1 : Nat) : ℚ)) / 500) * m)
    (List.range n) [] List.nodup_nil

theorem targetAskPrices_nodup (n : Nat) (m : ℚ) :
    (SpreadStrategy.targetAskPrices n m).Nodup := by
  unfold SpreadStrategy.targetAskPrices
  exact foldl_hashInsert_nodup (fun i => (1 + (((i + 1 : Nat) : ℚ)) / 500) * m)
    (List.range n) [] List.nodup_nil

theorem map_fst_price_pairs (mk : ℚ → Order) (l : List ℚ) :
    ((l.map fun p => (p, mk p)).map Prod.fst) = l := by
  induction l with
  | nil => rfl
  | cons p rest ih => simp [ih]

theorem containsKey_eq_false {α β : Type} [DecidableEq α] (k : α) (l : List (α × β))
    (h : k ∉ l.map Prod.fst) : containsKey k l = false := by
  induction l with
  | nil => rfl
  | cons kv rest ih =>
    obtain ⟨k₂, v⟩ := kv
    simp only [List.map_cons, List.mem_cons, not_or] at h
    unfold containsKey
    rw [if_neg (Ne.symm h.1)]
    exact ih h.2

theorem collectMap_eq_self {α β : Type} [DecidableEq α] (l : List (α × β))
    (h : (l.map Prod.fst).Nodup) : collectMap l = l := by
  induction l with
  | nil => rfl
  | cons kv rest ih =>
    obtain ⟨k, v⟩ := kv
    simp only [List.map_cons, List.nodup_cons] at h
    unfold collectMap
    rw [containsKey_eq_false k rest h.1]
    simp [ih h.2]

theorem assocFind_cons_self {α β : Type} [DecidableEq α] (k : α) (v : β)
    (rest : List (α × β)) : assocFind k ((k, v) :: rest) = some v := by
  simp [assocFind]

theorem assocErase_of_not_mem {α β : Type} [DecidableEq α] (k : α) (l : List (α × β))
    (h : k ∉ l.map Prod.fst) : assocErase k l = l := by
  induction l with
  | nil => rfl
  | cons kv rest ih =>
    obtain ⟨k₂, v⟩ := kv
    simp only [List.map_cons, List.mem_cons, not_or] at h
    unfold assocErase
    rw [if_neg (Ne.symm h.1)]
    rw [ih h.2]

theorem matchTargets_all_matched (cfg : SpreadCfg) (ts : List ℚ) (g : ℚ → Order)
    (hnd : ts.Nodup) (hsz : ∀ p ∈ ts, (g p).size = cfg.orderSize) :
    SpreadStrategy.matchTargets cfg ts (ts.map fun p => (p, g p)) = ([], [], []) := by
  induction ts with
  | nil => rfl
  | cons p rest ih =>
    simp only [List.map_cons]
    unfold SpreadStrategy.matchTargets
    rw [assocFind_cons_self]
    dsimp only
    have hkey : p ∉ (rest.map fun q => (q, g q)).map Prod.fst := by
      simpa [List.map_map, Function.comp] using (List.nodup_cons.mp hnd).1
    have herase : assocErase p ((p, g p) :: rest.map fun q => (q, g q)) =
        rest.map fun q => (q, g q) := by
      unfold assocErase
      rw [if_pos rfl]
      exact assocErase_of_not_mem p _ hkey
    rw [herase]
    rw [ih (List.nodup_cons.mp hnd).2 (fun q hq => hsz q (List.mem_cons_of_mem p hq))]
    dsimp only
    rw [if_neg (fun hne => hne (hsz p (List.mem_cons_self p rest)))]

theorem createTargetOrderChanges_matched (cfg : SpreadCfg) (ts : List ℚ) (g : ℚ → Order)
    (rt : RequestType) (hnd : ts.Nodup) (hsz : ∀ p ∈ ts, (g p).size = cfg.orderSize) :
    SpreadStrategy.createTargetOrderChanges cfg (ts.map fun p => (p, g p)) ts rt = [] := by
  unfold SpreadStrategy.createTargetOrderChanges
  rw [matchTargets_all_matched cfg ts g hnd hsz]
  rfl

theorem filter_otype_map_keep (ty : OrderType) (mk : ℚ → Order) (l : List ℚ)
    (h : ∀ p, (mk p).otype = ty) :
    (l.map mk).filter (fun o => decide (o.otype = ty)) = l.map mk := by
  induction l with
  | nil => rfl
  | cons p rest ih => simp [h, ih]

theorem filter_otype_map_drop (ty : OrderType) (mk : ℚ → Order) (l : List ℚ)
    (h : ∀ p, (mk p).otype ≠ ty) :
    (l.map mk).filter (fun o => decide (o.otype = ty)) = [] := by
  induction l with
  | nil => rfl
  | cons p rest ih => simp [h, ih]

theorem map_price_pair (mk : ℚ → Order) (l : List ℚ) (h : ∀ p, (mk p).price = p) :
    (l.map mk).map (fun o => (o.price, o)) = l.map (fun p => (p, mk p)) := by
  induction l with
  | nil => rfl
  | cons p rest ih => simp [h, ih]

/-- C8: if the Spread strategy runs with an unchanged mark price and the
account's resting orders exactly reflect the previous call — one order at
every target bid price (open-long) and every target ask price (open-short),
each of the configured size — the call produces an empty order-desc list and
submits nothing (`noSubmit`, releasing the permit immediately). -/
theorem spread_second_call_idempotent (cfg : SpreadCfg) (st : SpreadState) (ex : Exchange)
    (perp : Perpetual) (a : Nat) (idB idA : ℚ → Nat)
    (hperp : assocFind cfg.perpetualId ex.perpetuals = some perp)
    (hacc : st.accountId = some a)
    (hmark : perp.markPrice = st.currentMarkPrice)
    (horders : fetchOpenOrders perp a =
      (SpreadStrategy.targetBidPrices cfg.ordersPerSide perp.markPrice).map
        (fun p => ⟨idB p, a, p, cfg.orderSize, .openLong⟩) ++
      (SpreadStrategy.targetAskPrices cfg.ordersPerSide perp.markPrice).map
        (fun p => ⟨idA p, a, p, cfg.orderSize, .openShort⟩)) :
    (SpreadStrategy.processOrders cfg st perp a).2 = [] ∧
      (SpreadStrategy.execute cfg st ex).2 = .noSubmit := by
  have hcb : SpreadStrategy.currentBids perp a =
      (SpreadStrategy.targetBidPrices cfg.ordersPerSide perp.markPrice).map
        (fun p => (p, (⟨idB p, a, p, cfg.orderSize, .openLong⟩ : Order))) := by
    unfold SpreadStrategy.currentBids
    rw [horders, List.filter_append,
      filter_otype_map_keep .openLong _ _ (fun p => rfl),
      filter_otype_map_drop .openLong _ _ (fun p => by simp),
      List.append_nil,
      map_price_pair _ _ (fun p => rfl)]
    exact collectMap_eq_self _
      (by rw [map_fst_price_pairs]
          exact targetBidPrices_nodup cfg.ordersPerSide perp.markPrice)
  have hca : SpreadStrategy.currentAsks perp a =
      (SpreadStrategy.targetAskPrices cfg.ordersPerSide perp.markPrice).map
        (fun p => (p, (⟨idA p, a, p, cfg.orderSize, .openShort⟩ : Order))) := by
    unfold SpreadStrategy.currentAsks
    rw [horders, List.filter_append,
      filter_otype_map_drop .openShort _ _ (fun p => by simp),
      filter_otype_map_keep .openShort _ _ (fun p => rfl),
      List.nil_append,
      map_price_pair _ _ (fun p => rfl)]
    exact collectMap_eq_self _
      (by rw [map_fst_price_pairs]
          exact targetAskPrices_nodup cfg.ordersPerSide perp.markPrice)
  have hbdescs : SpreadStrategy.bidDescs cfg perp a = [] := by
    unfold SpreadStrategy.bidDescs
    rw [hcb]
    exact createTargetOrderChanges_matched cfg _ _ .openLong
      (targetBidPrices_nodup cfg.ordersPerSide perp.markPrice) (fun p hp => rfl)
  have hadescs : SpreadStrategy.askDescs cfg perp a = [] := by
    unfold SpreadStrategy.askDescs
    rw [hca]
    exact createTargetOrderChanges_matched cfg _ _ .openShort
      (targetAskPrices_nodup cfg.ordersPerSide perp.markPrice) (fun p hp => rfl)
  have hmain : (SpreadStrategy.processOrders cfg st perp a).2 = [] := by
    unfold SpreadStrategy.processOrders
    dsimp only
    rw [hbdescs, hadescs]
    split <;> rfl
  refine ⟨hmain, ?_⟩
  rw [spread_execute_eq cfg st ex perp a hperp hacc]
  simp [hmain]


theorem spread_ladder_four_orders_witness :
    ((100 : ℚ) = 100) ∧ fetchOpenOrders ⟨100, none, none, []⟩ 0 = [] ∧
      ((SpreadStrategy.processOrders ⟨2, 7, 1, none, 1⟩ ⟨some 0, 0⟩
        ⟨100, none, none, []⟩ 0).2.map
        (fun d => (d.reqType, d.price, d.size, d.targetOrderId))).Perm
        [(.openLong, (499/5 : ℚ), 7, (none : Option Nat)),
          (.openLong, (498/5 : ℚ), 7, none),
          (.openShort, (501/5 : ℚ), 7, none),
          (.openShort, (502/5 : ℚ), 7, none)] :=
  ⟨rfl, rfl, spread_ladder_four_orders 7 1 none 1 0 ⟨some 0, 0⟩
    ⟨100, none, none, []⟩ rfl rfl⟩

theorem spread_descs_never_cancel_witness :
    (SpreadStrategy.placeOrder ⟨1, 7, 1, none, 1⟩ .openLong 499 7 ∈
      (SpreadStrategy.processOrders ⟨1, 7, 1, none, 1⟩ ⟨some 0, 500⟩
        ⟨500, none, none, []⟩ 0).2) ∧
      ((SpreadStrategy.placeOrder ⟨1, 7, 1, none, 1⟩ .openLong 499 7).reqType = .openLong ∨
        (SpreadStrategy.placeOrder ⟨1, 7, 1, none, 1⟩ .openLong 499 7).reqType = .openShort ∨
        (SpreadStrategy.placeOrder ⟨1, 7, 1, none, 1⟩ .openLong 499 7).reqType = .change) := by
  have heval : (SpreadStrategy.processOrders ⟨1, 7, 1, none, 1⟩ ⟨some 0, 500⟩
      ⟨500, none, none, []⟩ 0).2 =
      [SpreadStrategy.placeOrder ⟨1, 7, 1, none, 1⟩ .openLong 499 7,
        SpreadStrategy.placeOrder ⟨1, 7, 1, none, 1⟩ .openShort 501 7] := by
    norm_num [SpreadStrategy.processOrders, SpreadStrategy.bidDescs,
      SpreadStrategy.askDescs, SpreadStrategy.currentBids, SpreadStrategy.currentAsks,
      SpreadStrategy.targetBidPrices, SpreadStrategy.targetAskPrices,
      SpreadStrategy.createTargetOrderChanges, SpreadStrategy.matchTargets,
      SpreadStrategy.repurposeOrders, fetchOpenOrders, hashInsert, collectMap, containsKey,
      assocFind, assocErase, List.range_succ]
  have hmem : SpreadStrategy.placeOrder ⟨1, 7, 1, none, 1⟩ .openLong 499 7 ∈
      (SpreadStrategy.processOrders ⟨1, 7, 1, none, 1⟩ ⟨some 0, 500⟩
        ⟨500, none, none, []⟩ 0).2 := by
    rw [heval]
    exact List.mem_cons_self _ _
  exact ⟨hmem, spread_descs_never_cancel ⟨1, 7, 1, none, 1⟩ ⟨some 0, 500⟩
    ⟨500, none, none, []⟩ 0 _ hmem⟩

theorem spread_second_call_idempotent_witness :
    (SpreadStrategy.processOrders ⟨1, 7, 1, none, 1⟩ ⟨some 0, 500⟩
      ⟨500, none, none,
        [⟨5, 0, 499, 7, .openLong⟩, ⟨6, 0, 501, 7, .openShort⟩]⟩ 0).2 = [] ∧
      (SpreadStrategy.execute ⟨1, 7, 1, none, 1⟩ ⟨some 0, 500⟩
        ⟨[(0, ⟨[]⟩)], [(1, ⟨500, none, none,
          [⟨5, 0, 499, 7, .openLong⟩, ⟨6, 0, 501, 7, .openShort⟩]⟩)]⟩).2 = .noSubmit := by
  have horders : fetchOpenOrders
      ⟨500, none, none, [⟨5, 0, 499, 7, .openLong⟩, ⟨6, 0, 501, 7, .openShort⟩]⟩ 0 =
      (SpreadStrategy.targetBidPrices 1 (500 : ℚ)).map
        (fun p => (⟨5, 0, p, 7, .openLong⟩ : Order)) ++
      (SpreadStrategy.targetAskPrices 1 (500 : ℚ)).map
        (fun p => (⟨6, 0, p, 7, .openShort⟩ : Order)) := by
    norm_num [fetchOpenOrders, SpreadStrategy.targetBidPrices,
      SpreadStrategy.targetAskPrices, hashInsert, List.range_succ]
  exact spread_second_call_idempotent ⟨1, 7, 1, none, 1⟩ ⟨some 0, 500⟩
    ⟨[(0, ⟨[]⟩)], [(1, ⟨500, none, none,
      [⟨5, 0, 499, 7, .openLong⟩, ⟨6, 0, 501, 7, .openShort⟩]⟩)]⟩
    ⟨500, none, none, [⟨5, 0, 499, 7, .openLong⟩, ⟨6, 0, 501, 7, .openShort⟩]⟩
    0 (fun _ => 5) (fun _ => 6) rfl rfl rfl horders

end MarketMaking
